import Mathlib

/-!
Verification of the folder2podcast Feed & Artwork Resolution Engine.

Strings of the JavaScript source are modelled as `List Char` (`Str`); file
systems, clocks and network collaborators are explicit oracles.  Operations
that can throw in the source are `Except`-valued; a `try/catch` of the source
becomes an explicit `match` on the `Except`.  Each definition mirrors one
function of the repository (file and line references are given in the
doc comments).
-/

namespace Folder2Podcast

/-- JavaScript strings, modelled as lists of characters. -/
abbrev Str := List Char

/-- The apostrophe character (codepoint 39). -/
def aposChar : Char := Char.ofNat 39

/-- JavaScript `a || b` on strings: the empty string is falsy. -/
def jsOrS (a b : Str) : Str := if a = [] then b else a

/-- JavaScript `String.prototype.trim`: strip whitespace from both ends. -/
def jsTrim (s : Str) : Str :=
  ((s.dropWhile Char.isWhitespace).reverse.dropWhile Char.isWhitespace).reverse

/-- Fuelled worker for global string replacement (leftmost, non-overlapping),
the semantics of JavaScript `s.replace(/pat/g, rep)` for a literal pattern.
The fuel is consumed one character per step, so `s.length` is enough fuel. -/
def replaceAllGo (pat rep : Str) : Nat → Str → Str
  | _, [] => []
  | 0, s => s
  | fuel + 1, c :: t =>
    if pat.isPrefixOf (c :: t) then
      rep ++ replaceAllGo pat rep fuel (t.drop (pat.length - 1))
    else
      c :: replaceAllGo pat rep fuel t

/-- Global string replacement, JavaScript `s.replace(/pat/g, rep)`. -/
def replaceAllL (pat rep s : Str) : Str := replaceAllGo pat rep s.length s

/-- Replace the first occurrence only, JavaScript `s.replace("pat", rep)`. -/
def replaceFirstL (pat rep : Str) : Str → Str
  | [] => []
  | c :: t =>
    if pat.isPrefixOf (c :: t) then rep ++ t.drop (pat.length - 1)
    else c :: replaceFirstL pat rep t

/-- Substring test (used to state properties about rendered HTML). -/
def containsSeq (needle : Str) : Str → Bool
  | [] => decide (needle = [])
  | c :: t => needle.isPrefixOf (c :: t) || containsSeq needle t

/-- JavaScript `parts.join("")`. -/
def strJoin : List Str → Str
  | [] => []
  | s :: t => s ++ strJoin t

/-- JavaScript `parts.join(sep)`. -/
def joinSep (sep : Str) : List Str → Str
  | [] => []
  | [s] => s
  | s :: t => s ++ sep ++ joinSep sep t

/-- `path.join(a, b)` for the simple path segments used by the engine. -/
def pathJoin (a b : Str) : Str := a ++ '/' :: b

/-- Characters that `encodeURIComponent` leaves unescaped. -/
def isUriUnreserved (c : Char) : Bool :=
  c.isAlphanum || decide (c ∈ ['-', '_', '.', '!', '~', '*', aposChar, '(', ')'])

/-- Upper-case hexadecimal digit. -/
def hexDigit (n : Nat) : Char :=
  if n < 10 then Char.ofNat (48 + n) else Char.ofNat (55 + n)

/-- UTF-8 bytes of a code point. -/
def utf8BytesOf (n : Nat) : List Nat :=
  if n < 128 then [n]
  else if n < 2048 then [192 + n / 64, 128 + n % 64]
  else if n < 65536 then [224 + n / 4096, 128 + (n / 64) % 64, 128 + n % 64]
  else [240 + n / 262144, 128 + (n / 4096) % 64, 128 + (n / 64) % 64, 128 + n % 64]

/-- JavaScript `encodeURIComponent`. -/
def encodeURIComponent (s : Str) : Str :=
  s.flatMap fun c =>
    if isUriUnreserved c then [c]
    else (utf8BytesOf c.toNat).flatMap fun b => ['%', hexDigit (b / 16), hexDigit (b % 16)]

/-! ## HTML escaping (`escapeHtml`, src/unnamed/part_001 lines 71-78) -/

/-- The entity for the ampersand. -/
def entAmp : Str := "&amp;".data

/-- The entity for the less-than sign. -/
def entLt : Str := "&lt;".data

/-- The entity for the greater-than sign. -/
def entGt : Str := "&gt;".data

/-- The entity for the double quote. -/
def entQuot : Str := "&quot;".data

/-- The entity for the apostrophe. -/
def entApos : Str := "&#39;".data

/-- `escapeHtml` of the source: five sequential global replacements,
ampersand first. -/
def escapeHtml (input : Str) : Str :=
  replaceAllL [aposChar] entApos
    (replaceAllL ['"'] entQuot
      (replaceAllL ['>'] entGt
        (replaceAllL ['<'] entLt
          (replaceAllL ['&'] entAmp input))))

/-- Un-escaping as described by claim C9: put the four character entities
back, and `&amp;` last. -/
def unescapeHtml (s : Str) : Str :=
  replaceAllL entAmp ['&']
    (replaceAllL entApos [aposChar]
      (replaceAllL entQuot ['"']
        (replaceAllL entGt ['>']
          (replaceAllL entLt ['<'] s))))

/-! ## Byte formatting (`formatBytes`, src/unnamed/part_001 lines 80-91) -/

/-- A JavaScript `number` as far as `formatBytes` inspects it: NaN and the
infinities are the non-finite values, finite values are exact rationals
(the divisions by 1024 performed on integer byte counts are exact in
binary floating point, so the rational model is faithful there). -/
inductive JSNum where
  | nan : JSNum
  | posInf : JSNum
  | negInf : JSNum
  | finite : ℚ → JSNum
deriving DecidableEq, Repr

/-- The unit names of `formatBytes`. -/
def fbUnits : List Str := ["B".data, "KB".data, "MB".data, "GB".data, "TB".data]

/-- The `while (n >= 1024 && i < units.length - 1)` loop of `formatBytes`.
`units.length - 1 = 4`; since `i` grows by one per iteration the loop body
runs at most four times, so four units of fuel are exact. -/
def fbLoop : Nat → ℚ → Nat → ℚ × Nat
  | 0, n, i => (n, i)
  | fuel + 1, n, i =>
    if 1024 ≤ n ∧ i < 4 then fbLoop fuel (n / 1024) (i + 1) else (n, i)

/-- Floor of a rational as an integer. -/
def ratFloor (q : ℚ) : ℤ := q.num.fdiv (q.den : ℤ)

/-- Pad a digit string with leading zeros to `d` digits. -/
def natPadLeft (d : Nat) (s : Str) : Str := List.replicate (d - s.length) '0' ++ s

/-- JavaScript `Number.prototype.toFixed(d)` on exactly represented values:
round to the nearest multiple of `10^(-d)`, ties towards the larger value. -/
def toFixed (d : Nat) (q : ℚ) : Str :=
  let m : ℤ := ratFloor (q * (10 : ℚ) ^ d + 1 / 2)
  let mn : Nat := m.toNat
  if d = 0 then (Nat.repr mn).data
  else (Nat.repr (mn / 10 ^ d)).data ++ '.' :: natPadLeft d (Nat.repr (mn % 10 ^ d)).data

/-- `formatBytes` of the source. -/
def formatBytes (bytes : JSNum) : Str :=
  match bytes with
  | .nan => "0 B".data
  | .posInf => "0 B".data
  | .negInf => "0 B".data
  | .finite b =>
    if b ≤ 0 then "0 B".data
    else
      let p := fbLoop 4 b 0
      let fixed : Nat := if p.2 = 0 then 0 else if 10 ≤ p.1 then 1 else 2
      toFixed fixed p.1 ++ ' ' :: (fbUnits.getD p.2 [])

/-- `formatDate` of the source: a `Date` is modelled by its ISO-8601 string
(`toISOString()`), in which `T` and the trailing `Z` are rewritten.
JavaScript `replace` with a string pattern touches the first occurrence. -/
def formatDate (iso : Str) : Str :=
  replaceFirstL "Z".data " UTC".data (replaceFirstL "T".data " ".data iso)

/-! ## Cover resolver (src/unnamed/part_000) -/

/-- An abstract view of the on-disk cache: which paths exist. -/
abbrev FS := Str → Bool

/-- Point update of a file system. -/
def updFS (fs : FS) (p : Str) (b : Bool) : FS :=
  fun q => if q = p then b else fs q

/-- `coversDir()`: `path.join(process.cwd(), ".covers")`. -/
def coversDir (cwd : Str) : Str := pathJoin cwd ".covers".data

/-- The three supported cover extensions, in the order the source probes. -/
def coverExts : List Str := [".jpg".data, ".png".data, ".webp".data]

/-- `guessExtFromUrl` (lines 10-17): lower-case, cut at the query string,
then match known suffixes; everything else defaults to `.jpg`. -/
def guessExtFromUrl (url : Str) : Str :=
  let lower := (url.map Char.toLower).takeWhile fun c => decide (c ≠ '?')
  if ".png".data.isSuffixOf lower then ".png".data
  else if ".webp".data.isSuffixOf lower then ".webp".data
  else if ".jpeg".data.isSuffixOf lower then ".jpg".data
  else if ".jpg".data.isSuffixOf lower then ".jpg".data
  else ".jpg".data

/-- `isFresh` (lines 19-27).  `fs.stat` either throws (`.error`, caught:
result `false`) or yields the modification time in milliseconds. -/
def isFresh (statResult : Except Unit ℤ) (now ttlDays : ℤ) : Bool :=
  match statResult with
  | .error _ => false
  | .ok mtimeMs =>
    let ageMs := now - mtimeMs
    decide (0 ≤ ageMs) && decide (ageMs < ttlDays * 24 * 60 * 60 * 1000)

/-- `toCoverRoute` (lines 82-85). -/
def toCoverRoute (fileName : Str) : Str := "/covers/".data ++ encodeURIComponent fileName

/-- The result record of `resolveCoverForSource`; both fields optional,
`{}` is the empty result. -/
structure CoverResult where
  coverUrl : Option Str
  coverCachePath : Option Str
deriving DecidableEq, Repr

/-- The empty result `{}`. -/
def emptyResult : CoverResult := ⟨none, none⟩

/-- One element of the `results` array of the search response, carrying the
artwork fields the source inspects (the empty string models an absent or
otherwise falsy field, exactly as JavaScript `||` treats it). -/
structure Candidate where
  a600 : Str
  a512 : Str
  a100 : Str
deriving DecidableEq, Repr

/-- Outcome of the iTunes search HTTP exchange for one term. -/
inductive SearchOutcome where
  | fetchThrow : SearchOutcome
  | respNotOk : SearchOutcome
  | jsonThrow : SearchOutcome
  | ok : Option (List Candidate) → SearchOutcome

/-- `first.artworkUrl600 || first.artworkUrl512 || first.artworkUrl100 || null`. -/
def pickArtwork (c : Candidate) : Option Str :=
  if c.a600 ≠ [] then some c.a600
  else if c.a512 ≠ [] then some c.a512
  else if c.a100 ≠ [] then some c.a100
  else none

/-- The body of `itunesSearchArtwork` (lines 56-80) before its `catch`:
network errors and malformed JSON throw; a non-2xx response returns `null`;
a missing or non-array `results` field counts as no results. -/
def itunesSearchBody (o : SearchOutcome) : Except Unit (Option Str) :=
  match o with
  | .fetchThrow => .error ()
  | .jsonThrow => .error ()
  | .respNotOk => .ok none
  | .ok results =>
    match results with
    | none => .ok none
    | some [] => .ok none
    | some (first :: _) => .ok (pickArtwork first)

/-- `itunesSearchArtwork` with its `catch { return null }`. -/
def itunesSearchArtwork (o : SearchOutcome) : Option Str :=
  match itunesSearchBody o with
  | .ok v => v
  | .error _ => none

/-- Outcome of the artwork download fetch. -/
inductive FetchOutcome where
  | fetchThrow : FetchOutcome
  | respNotOk : FetchOutcome
  | okBytes : FetchOutcome

/-- The download collaborators: the fetch outcome per URL, and whether
`ensureDir` and `writeFile` succeed. -/
structure DlWorld where
  fetchFor : Str → FetchOutcome
  ensureDirOk : Bool
  writeOk : Str → Bool

/-- `downloadToFile` (lines 40-54): throws on fetch failure, non-2xx status,
or a directory/write error; on success the target file exists. -/
def downloadToFile (dl : DlWorld) (fs : FS) (url filePath : Str) :
    Except Unit Unit × FS :=
  match dl.fetchFor url with
  | .fetchThrow => (.error (), fs)
  | .respNotOk => (.error (), fs)
  | .okBytes =>
    if dl.ensureDirOk then
      if dl.writeOk filePath then (.ok (), updFS fs filePath true)
      else (.error (), fs)
    else (.error (), fs)

/-- The loop body of `cleanupOldVariants` (lines 29-38) over a list of
extensions.  `fs.remove` has no surrounding `try` in the source, so a failed
removal aborts the loop with an exception and leaves the file in place. -/
def cleanupGo (removeOk : Str → Bool) (basePathNoExt keepExt : Str) :
    FS → List Str → Except Unit Unit × FS
  | fs, [] => (.ok (), fs)
  | fs, ext :: rest =>
    if ext = keepExt then cleanupGo removeOk basePathNoExt keepExt fs rest
    else
      let p := basePathNoExt ++ ext
      if fs p then
        if removeOk p then cleanupGo removeOk basePathNoExt keepExt (updFS fs p false) rest
        else (.error (), fs)
      else cleanupGo removeOk basePathNoExt keepExt fs rest

/-- `cleanupOldVariants` over the three supported extensions. -/
def cleanupOldVariants (fs : FS) (removeOk : Str → Bool) (basePathNoExt keepExt : Str) :
    Except Unit Unit × FS :=
  cleanupGo removeOk basePathNoExt keepExt fs coverExts

/-- The `try { download; cleanup; return route } catch { return {} }` block
of `resolveCoverForSource` (lines 119-128). -/
def coverFinalize (dl : DlWorld) (removeOk : Str → Bool) (fs : FS)
    (artworkUrl baseNoExt baseName : Str) : CoverResult × FS :=
  let ext := guessExtFromUrl artworkUrl
  let cachePath := baseNoExt ++ ext
  match downloadToFile dl fs artworkUrl cachePath with
  | (.error _, fs1) => (emptyResult, fs1)
  | (.ok _, fs1) =>
    match cleanupOldVariants fs1 removeOk baseNoExt ext with
    | (.error _, fs2) => (emptyResult, fs2)
    | (.ok _, fs2) =>
      ({ coverUrl := some (toCoverRoute (baseName ++ ext)),
         coverCachePath := some cachePath }, fs2)

/-- Artwork URL selection (lines 105-115): prefer the trimmed configured
cover URL, otherwise search with the `||`-chained, then trimmed term.
The second component records whether the remote search was performed. -/
def decideArtwork (coverImageUrl coverSearchTerm title dirName : Str)
    (search : Str → Option Str) : Option Str × Bool :=
  let directUrl := jsTrim coverImageUrl
  if directUrl ≠ [] then (some directUrl, false)
  else
    let term := jsTrim (jsOrS (jsOrS coverSearchTerm title) dirName)
    if term ≠ [] then (search term, true) else (none, false)

/-- The cache probe loop (lines 98-103): for each extension in order, return
on the first existing and fresh cache file. -/
def probeGo (pe : Str → Bool) (statMtime : Str → Except Unit ℤ) (now ttl : ℤ)
    (baseNoExt baseName : Str) : List Str → Option CoverResult
  | [] => none
  | ext :: rest =>
    let p := baseNoExt ++ ext
    if pe p && isFresh (statMtime p) now ttl then
      some { coverUrl := some (toCoverRoute (baseName ++ ext)), coverCachePath := some p }
    else probeGo pe statMtime now ttl baseNoExt baseName rest

/-- `REMOTE_COVER_PROVIDER` values. -/
inductive RCProvider where
  | pnone : RCProvider
  | pitunes : RCProvider
deriving DecidableEq

/-- The environment snapshot fields `resolveCoverForSource` reads. -/
structure CoverEnv where
  enabled : Bool
  provider : RCProvider
  country : Str
  ttlDays : ℤ
  timeoutMs : ℤ

/-- All collaborators of one `resolveCoverForSource` run. -/
structure CoverWorld where
  cwd : Str
  now : ℤ
  fs0 : FS
  statMtime : Str → Except Unit ℤ
  searchFetch : Str → SearchOutcome
  dl : DlWorld
  removeOk : Str → Bool

/-- The fields of `PodcastSource` the resolver reads; the empty string
models an absent optional config field (JavaScript falsy). -/
structure SourceCfg where
  dirName : Str
  title : Str
  coverImageUrl : Str
  coverSearchTerm : Str

/-- `resolveCoverForSource` (lines 87-129).  The codomain is `Except` so that
an uncaught exception would be visible as `.error`; the state component is
the file system after the run. -/
def resolveCoverForSource (env : CoverEnv) (w : CoverWorld) (src : SourceCfg) :
    Except Unit (CoverResult × FS) :=
  if env.enabled = false ∨ env.provider = RCProvider.pnone then
    .ok (emptyResult, w.fs0)
  else
    let baseName := src.dirName
    let baseNoExt := pathJoin (coversDir w.cwd) baseName
    match probeGo w.fs0 w.statMtime w.now env.ttlDays baseNoExt baseName coverExts with
    | some hit => .ok (hit, w.fs0)
    | none =>
      match decideArtwork src.coverImageUrl src.coverSearchTerm src.title src.dirName
          (fun term => itunesSearchArtwork (w.searchFetch term)) with
      | (none, _) => .ok (emptyResult, w.fs0)
      | (some url, _) => .ok (coverFinalize w.dl w.removeOk w.fs0 url baseNoExt baseName)

/-- How many of the three cover cache files exist for one base path. -/
def coverCount (fs : FS) (baseNoExt : Str) : Nat :=
  (coverExts.filter fun e => fs (baseNoExt ++ e)).length

/-! ## Sidecar attachments and shownotes (src/unnamed/part_001) -/

/-- Attachment kinds. -/
inductive AttachKind where
  | image : AttachKind
  | text : AttachKind
  | pdf : AttachKind
  | doc : AttachKind
  | other : AttachKind
deriving DecidableEq, Repr

/-- A discovered sidecar attachment; `inlineText` is set for text kinds only. -/
structure Attachment where
  fileName : Str
  url : Str
  kind : AttachKind
  inlineText : Option Str
deriving DecidableEq, Repr

/-- The fixed sidecar probe extensions, in source order (line 113). -/
def sidecarExts : List Str :=
  ["pdf".data, "doc".data, "docx".data, "epub".data, "mobi".data, "azw3".data,
   "txt".data, "md".data, "jpg".data, "jpeg".data, "png".data, "webp".data]

/-- The extension-to-kind mapping (lines 140-144). -/
def kindOfExt (ext : Str) : AttachKind :=
  if ext ∈ ["jpg".data, "jpeg".data, "png".data, "webp".data] then .image
  else if ext ∈ ["md".data, "txt".data] then .text
  else if ext = "pdf".data then .pdf
  else if ext ∈ ["doc".data, "docx".data] then .doc
  else .other

/-- `audioFileName.replace(/\.[^/.]+$/, "")`: strip a final dot-extension
whose characters contain neither a dot nor a slash. -/
def stemOf (fileName : Str) : Str :=
  let rev := fileName.reverse
  let extRun := rev.takeWhile fun c => decide (c ≠ '.') && decide (c ≠ '/')
  if extRun ≠ [] ∧ (rev.drop extRun.length).head? = some '.' then
    ((rev.drop (extRun.length + 1)).reverse)
  else fileName

/-- File-system collaborators of the sidecar locator.  `readUtf8` abstracts
the stat/open/read sequence of `readTextTruncated`: `.error` models any
failure on the way (caught: empty text), `.ok s` the decoded content.  The
byte budget `max(1024, maxChars * 4)` of the source is a conservative
over-read and is absorbed into this abstraction; truncation to `maxChars`
characters is kept explicit. -/
structure FileWorld where
  pathExists : Str → Bool
  readUtf8 : Str → Except Unit Str

/-- `readTextTruncated` (lines 116-133). -/
def readTextTruncated (fw : FileWorld) (fullPath : Str) (maxChars : Nat) : Str :=
  match fw.readUtf8 fullPath with
  | .error _ => []
  | .ok s => if s.length > maxChars then s.take maxChars else s

/-- `findSidecarAttachments` (lines 102-159). -/
def findSidecarAttachments (fw : FileWorld) (dirPath audioFileName baseUrl dirName : Str)
    (maxTextChars : Nat) : List Attachment :=
  let stem := stemOf audioFileName
  sidecarExts.filterMap fun ext =>
    let candidate := stem ++ '.' :: ext
    let fullPath := pathJoin dirPath candidate
    if fw.pathExists fullPath then
      let url := baseUrl ++ "/audio/".data ++ encodeURIComponent dirName
          ++ '/' :: encodeURIComponent candidate
      let kind := kindOfExt ext
      some { fileName := candidate, url := url, kind := kind,
             inlineText :=
               if kind = AttachKind.text then
                 some (readTextTruncated fw fullPath maxTextChars)
               else none }
    else none

/-- `EPISODE_SHOWNOTES` modes. -/
inductive ShowMode where
  | mTitle : ShowMode
  | mFull : ShowMode
deriving DecidableEq

/-- `EPISODE_INLINE_ATTACHMENTS` modes. -/
inductive InlineMode where
  | imNone : InlineMode
  | imImages : InlineMode
  | imAll : InlineMode
deriving DecidableEq

/-- The episode fields the shownotes builder reads; the publish date is
modelled by its ISO string. -/
structure EpisodeIn where
  title : Str
  fileName : Str
  pubDateIso : Str

/-- The heading that opens the Notes section (line 251). -/
def notesHeader : Str := "<hr/><p><strong>Notes</strong></p>".data

/-- The heading that opens the Images section (line 242). -/
def imagesHeader : Str := "<hr/><p><strong>Images</strong></p>".data

/-- One attachment link item of the base list (line 230). -/
def attachmentLinkLi (a : Attachment) : Str :=
  "<li><a href=\"".data ++ escapeHtml a.url ++ "\">".data
    ++ escapeHtml a.fileName ++ "</a></li>".data

/-- One inlined image block (line 245). -/
def imageBlock (a : Attachment) : Str :=
  "<p><a href=\"".data ++ escapeHtml a.url ++ "\"><img src=\"".data
    ++ escapeHtml a.url ++ "\" alt=\"".data ++ escapeHtml a.fileName
    ++ "\" style=\"max-width:100%;height:auto;\"/></a></p>".data

/-- The link line of a Notes entry (lines 255 and 258). -/
def noteLink (a : Attachment) : Str :=
  "<p><a href=\"".data ++ escapeHtml a.url ++ "\">".data
    ++ escapeHtml a.fileName ++ "</a></p>".data

/-- The parts one text attachment contributes to the Notes section
(lines 252-260): link only when the trimmed inline text is empty, otherwise
link plus a `<pre>` block of the escaped trimmed text. -/
def noteParts (a : Attachment) : List Str :=
  let body := jsTrim (a.inlineText.getD [])
  if body = [] then [noteLink a]
  else [noteLink a, "<pre>".data ++ escapeHtml body ++ "</pre>".data]

/-- The base list of HTML parts of full-mode shownotes (lines 219-234). -/
def basePartsOf (cfgTitle : Str) (ep : EpisodeIn) (episodeUrl : Str)
    (fileSizeBytes : JSNum) (attachments : List Attachment) : List Str :=
  ["<p><strong>".data ++ escapeHtml ep.title ++ "</strong></p>".data,
   "<ul>".data,
   "<li><strong>Podcast</strong>: ".data ++ escapeHtml cfgTitle ++ "</li>".data,
   "<li><strong>Published</strong>: ".data ++ escapeHtml (formatDate ep.pubDateIso) ++ "</li>".data,
   "<li><strong>File</strong>: ".data ++ escapeHtml ep.fileName ++ "</li>".data,
   "<li><strong>Size</strong>: ".data ++ escapeHtml (formatBytes fileSizeBytes) ++ "</li>".data,
   "<li><strong>Audio</strong>: <a href=\"".data ++ escapeHtml episodeUrl ++ "\">".data
     ++ escapeHtml episodeUrl ++ "</a></li>".data]
  ++ (if attachments ≠ [] then
        "<li><strong>Attachments</strong>:<ul>".data
          :: attachments.map attachmentLinkLi ++ ["</ul></li>".data]
      else [])
  ++ ["</ul>".data]

/-- The extra inline sections of full-mode shownotes (lines 236-262). -/
def extraPartsOf (attachments : List Attachment) (inline : InlineMode) : List Str :=
  if attachments ≠ [] ∧ inline ≠ InlineMode.imNone then
    (let images := attachments.filter fun a => decide (a.kind = AttachKind.image)
     let texts := attachments.filter fun a => decide (a.kind = AttachKind.text)
     (if images ≠ [] ∧ (inline = InlineMode.imImages ∨ inline = InlineMode.imAll) then
        imagesHeader :: images.map imageBlock
      else [])
     ++ (if texts ≠ [] ∧ inline = InlineMode.imAll then
           notesHeader :: texts.flatMap noteParts
         else []))
  else []

/-- All HTML parts of full-mode shownotes, in push order. -/
def buildHtmlParts (cfgTitle : Str) (ep : EpisodeIn) (episodeUrl : Str)
    (fileSizeBytes : JSNum) (attachments : List Attachment) (inline : InlineMode) :
    List Str :=
  basePartsOf cfgTitle ep episodeUrl fileSizeBytes attachments ++ extraPartsOf attachments inline

/-- The plain-text lines of full-mode shownotes (lines 208-217). -/
def plainLines (cfgTitle : Str) (ep : EpisodeIn) (episodeUrl : Str)
    (fileSizeBytes : JSNum) (attachments : List Attachment) : List Str :=
  [ep.title,
   "Podcast: ".data ++ cfgTitle,
   "Published: ".data ++ formatDate ep.pubDateIso,
   "File: ".data ++ ep.fileName,
   "Size: ".data ++ formatBytes fileSizeBytes,
   "Audio: ".data ++ episodeUrl]
  ++ (if attachments ≠ [] then
        ["Attachments: ".data ++ joinSep ", ".data (attachments.map fun a => a.fileName)]
      else [])

/-- The result record of `buildEpisodeShownotes`. -/
structure Shownotes where
  plain : Str
  html : Str

/-- `buildEpisodeShownotes` (lines 183-265). -/
def buildEpisodeShownotes (fw : FileWorld) (cfgTitle dirName dirPath : Str)
    (ep : EpisodeIn) (episodeUrl : Str) (fileSizeBytes : JSNum) (baseUrl : Str)
    (defaultMode : ShowMode) (inline : InlineMode) (inlineTextMaxChars : Nat) :
    Shownotes :=
  if defaultMode = ShowMode.mTitle then
    { plain := ep.title, html := "<p>".data ++ escapeHtml ep.title ++ "</p>".data }
  else
    let attachments := findSidecarAttachments fw dirPath ep.fileName baseUrl dirName
      inlineTextMaxChars
    { plain := joinSep ['\n'] (plainLines cfgTitle ep episodeUrl fileSizeBytes attachments),
      html := strJoin (buildHtmlParts cfgTitle ep episodeUrl fileSizeBytes attachments inline) }

/-! ## Auxiliary notions for the proofs -/

/-- A block `B` through which a scan for `pat` can pass: at every offset of
`B` the pattern mismatches strictly inside `B`, whatever follows. -/
def skippable (pat : Str) : Str → Bool
  | [] => true
  | b :: rest =>
    !pat.isPrefixOf (b :: rest) && !(b :: rest).isPrefixOf pat && skippable pat rest

/-- The per-character effect of `escapeHtml`. -/
def escChar (c : Char) : Str :=
  if c = '&' then entAmp
  else if c = '<' then entLt
  else if c = '>' then entGt
  else if c = '"' then entQuot
  else if c = aposChar then entApos
  else [c]

/-- Stage one of escaping: only the ampersand handled. -/
def esc1 (c : Char) : Str := if c = '&' then entAmp else [c]

/-- Stage two of escaping: ampersand and the less-than sign handled. -/
def esc2 (c : Char) : Str :=
  if c = '&' then entAmp else if c = '<' then entLt else [c]

/-- Stage three of escaping. -/
def esc3 (c : Char) : Str :=
  if c = '&' then entAmp else if c = '<' then entLt
  else if c = '>' then entGt else [c]

/-- Stage four of escaping. -/
def esc4 (c : Char) : Str :=
  if c = '&' then entAmp else if c = '<' then entLt
  else if c = '>' then entGt else if c = '"' then entQuot else [c]

/-- Stage one of un-escaping: the less-than entity put back. -/
def dec1 (c : Char) : Str :=
  if c = '&' then entAmp
  else if c = '<' then ['<']
  else if c = '>' then entGt
  else if c = '"' then entQuot
  else if c = aposChar then entApos
  else [c]

/-- Stage two of un-escaping: the less-than and greater-than entities put
back. -/
def dec2 (c : Char) : Str :=
  if c = '&' then entAmp
  else if c = '"' then entQuot
  else if c = aposChar then entApos
  else [c]

/-- Stage three of un-escaping: only the apostrophe and ampersand entities
remain. -/
def dec3 (c : Char) : Str :=
  if c = '&' then entAmp
  else if c = aposChar then entApos
  else [c]

/-- Stage four of un-escaping: only the ampersand entity remains. -/
def dec4 (c : Char) : Str := if c = '&' then entAmp else [c]

/-! ## Concrete example data for counterexamples and witnesses -/

/-- A cache in which only the stale `b.png` variant exists. -/
def fsPngOnly : FS := fun p => decide (p = "b.png".data)

/-- A download world in which fetching, `ensureDir` and writing succeed. -/
def dlOk : DlWorld :=
  { fetchFor := fun _ => .okBytes, ensureDirOk := true, writeOk := fun _ => true }

/-- Every `fs.remove` throws. -/
def removeNone : Str → Bool := fun _ => false

/-- Every `fs.remove` succeeds. -/
def removeAll : Str → Bool := fun _ => true

/-- A remote-cover environment with the feature enabled. -/
def envAllFail : CoverEnv :=
  { enabled := true, provider := .pitunes, country := "cn".data,
    ttlDays := 30, timeoutMs := 8000 }

/-- A world in which every collaborator fails: empty cache, throwing stat,
throwing search fetch, throwing download fetch. -/
def worldAllFail : CoverWorld :=
  { cwd := "/app".data, now := 0, fs0 := fun _ => false,
    statMtime := fun _ => .error (), searchFetch := fun _ => .fetchThrow,
    dl := { fetchFor := fun _ => .fetchThrow, ensureDirOk := true,
            writeOk := fun _ => true },
    removeOk := fun _ => true }

/-- A source with an explicit cover URL. -/
def srcC6 : SourceCfg :=
  { dirName := "show".data, title := "T".data,
    coverImageUrl := "http://x/a.png".data, coverSearchTerm := [] }

/-- A text attachment whose inline text is whitespace only. -/
def attWS : Attachment :=
  { fileName := "ep1.md".data, url := "u".data, kind := .text,
    inlineText := some " ".data }

/-- A minimal episode used in concrete shownotes scenarios. -/
def epWS : EpisodeIn :=
  { title := "t".data, fileName := "ep1.mp3".data,
    pubDateIso := "2024-01-02T03:04:05.000Z".data }

/-- The file world of the `ep1.mp3` + `ep1.md` scenario: exactly the sibling
`d/ep1.md` exists and reads as `hello <notes>`. -/
def fwEp1 : FileWorld :=
  { pathExists := fun p => decide (p = "d/ep1.md".data),
    readUtf8 := fun p => if p = "d/ep1.md".data then .ok "hello <notes>".data
      else .error () }

/-- The episode of the `ep1.mp3` + `ep1.md` scenario. -/
def epEp1 : EpisodeIn :=
  { title := "Ep 1".data, fileName := "ep1.mp3".data,
    pubDateIso := "2024-01-02T03:04:05.000Z".data }

/-- Full-mode shownotes of the scenario with `all` inlining.  The size is
`NaN` (rendered `0 B`): it is irrelevant to the Notes-section behaviour and
keeps the concrete evaluation free of rational arithmetic. -/
def snAllEp1 : Shownotes :=
  buildEpisodeShownotes fwEp1 "My Show".data "show".data "d".data epEp1
    "http://h/a.mp3".data JSNum.nan "http://h".data .mFull .imAll 8000

/-- Full-mode shownotes of the scenario with `images` inlining. -/
def snImagesEp1 : Shownotes :=
  buildEpisodeShownotes fwEp1 "My Show".data "show".data "d".data epEp1
    "http://h/a.mp3".data JSNum.nan "http://h".data .mFull .imImages 8000

/-! ## Lemmas about global replacement -/

theorem isPrefixOf_append_self (a t : Str) : a.isPrefixOf (a ++ t) = true := by
  induction a with
  | nil => simp [List.isPrefixOf]
  | cons x xs ih => simp [List.isPrefixOf, ih]

theorem replaceAllGo_congr (pat rep : Str) :
    ∀ (f g : Nat) (s : Str), s.length ≤ f → s.length ≤ g →
      replaceAllGo pat rep f s = replaceAllGo pat rep g s := by
  intro f
  induction f with
  | zero =>
    intro g s hf _
    have hs : s = [] := by cases s <;> simp_all
    subst hs; cases g <;> rfl
  | succ f ih =>
    intro g s hf hg
    cases s with
    | nil => cases g <;> rfl
    | cons c t =>
      cases g with
      | zero => simp at hg
      | succ g =>
        simp only [List.length_cons, Nat.add_le_add_iff_right] at hf hg
        simp only [replaceAllGo]
        by_cases h : pat.isPrefixOf (c :: t) = true
        · simp only [h, if_true]
          have hd : (t.drop (pat.length - 1)).length ≤ t.length := by
            simp [List.length_drop]
          exact congrArg (rep ++ ·) (ih g _ (le_trans hd hf) (le_trans hd hg))
        · simp only [h, if_false]
          exact congrArg (c :: ·) (ih g t hf hg)

theorem replaceAllL_nil (pat rep : Str) : replaceAllL pat rep [] = [] := rfl

theorem replaceAllL_cons (pat rep : Str) (c : Char) (t : Str) :
    replaceAllL pat rep (c :: t) =
      if pat.isPrefixOf (c :: t) then
        rep ++ replaceAllL pat rep (t.drop (pat.length - 1))
      else c :: replaceAllL pat rep t := by
  show replaceAllGo pat rep (t.length + 1) (c :: t) = _
  simp only [replaceAllGo]
  by_cases h : pat.isPrefixOf (c :: t) = true
  · simp only [h, if_true]
    refine congrArg (rep ++ ·) (replaceAllGo_congr pat rep t.length _ _ ?_ le_rfl)
    simp [List.length_drop]
  · simp only [h, if_false]
    exact congrArg (c :: ·) (replaceAllGo_congr pat rep t.length _ _ le_rfl le_rfl)

theorem replaceAll_single (p : Char) (rep : Str) :
    ∀ s : Str, replaceAllL [p] rep s =
      s.flatMap fun c => if c = p then rep else [c] := by
  intro s
  induction s with
  | nil => rfl
  | cons c t ih =>
    rw [replaceAllL_cons, List.flatMap_cons]
    by_cases h : c = p
    · subst h
      have hp : [c].isPrefixOf (c :: t) = true := by simp [List.isPrefixOf]
      simp [hp, ih]
    · have hp : [p].isPrefixOf (c :: t) = false := by
        simp [List.isPrefixOf]
        exact fun hh => h hh.symm
      simp [hp, ih, h]

theorem not_prefixOf_append (pat : Str) :
    ∀ (B t : Str), pat.isPrefixOf B = false → B.isPrefixOf pat = false →
      pat.isPrefixOf (B ++ t) = false := by
  induction pat with
  | nil => intro B t h1 _; simp [List.isPrefixOf] at h1
  | cons p ps ih =>
    intro B t h1 h2
    cases B with
    | nil => simp [List.isPrefixOf] at h2
    | cons b bs =>
      simp only [List.isPrefixOf, Bool.and_eq_false_iff] at h1 h2
      simp only [List.cons_append, List.isPrefixOf, Bool.and_eq_false_iff]
      by_cases hpb : p = b
      · subst hpb
        rcases h1 with h1 | h1
        · simp at h1
        rcases h2 with h2 | h2
        · simp at h2
        exact Or.inr (ih bs t h1 h2)
      · exact Or.inl (by simp [hpb])

theorem skippable_append (pat rep : Str) :
    ∀ (B t : Str), skippable pat B = true →
      replaceAllL pat rep (B ++ t) = B ++ replaceAllL pat rep t := by
  intro B
  induction B with
  | nil => intro t _; rfl
  | cons b bs ih =>
    intro t h
    simp only [skippable, Bool.and_eq_true, Bool.not_eq_true'] at h
    obtain ⟨⟨h1, h2⟩, h3⟩ := h
    rw [List.cons_append, replaceAllL_cons]
    have hno : pat.isPrefixOf ((b :: bs) ++ t) = false := not_prefixOf_append pat _ t h1 h2
    rw [List.cons_append] at hno
    simp [hno, ih t h3]

theorem replaceAllL_matchBlock (pat rep : Str) (hp : pat ≠ []) (t : Str) :
    replaceAllL pat rep (pat ++ t) = rep ++ replaceAllL pat rep t := by
  cases pat with
  | nil => exact absurd rfl hp
  | cons p ps =>
    rw [List.cons_append, replaceAllL_cons]
    have hpre : (p :: ps).isPrefixOf (p :: (ps ++ t)) = true :=
      isPrefixOf_append_self (p :: ps) t
    have hdrop : (ps ++ t).drop ((p :: ps).length - 1) = t := by
      rw [show (p :: ps).length - 1 = ps.length by simp]
      exact List.drop_left ps t
    simp [hpre, hdrop]

theorem skippable_self_false (pat : Str) (hp : pat ≠ []) : skippable pat pat = false := by
  cases pat with
  | nil => exact absurd rfl hp
  | cons p ps =>
    have : (p :: ps).isPrefixOf (p :: ps) = true := by
      have h0 := isPrefixOf_append_self (p :: ps) []
      rwa [List.append_nil] at h0
    simp [skippable, this]

theorem replaceAll_blocks (pat rep : Str) (esc : Char → Str) (hp : pat ≠ [])
    (h : ∀ c, esc c = pat ∨ skippable pat (esc c) = true) :
    ∀ s : Str, replaceAllL pat rep (s.flatMap esc) =
      s.flatMap fun c => if esc c = pat then rep else esc c := by
  intro s
  induction s with
  | nil => rfl
  | cons c t ih =>
    rw [List.flatMap_cons, List.flatMap_cons]
    rcases h c with hc | hc
    · rw [hc, replaceAllL_matchBlock pat rep hp, ih, if_pos rfl]
    · have hne : esc c ≠ pat := by
        intro he
        rw [he, skippable_self_false pat hp] at hc
        exact Bool.false_ne_true hc
      rw [skippable_append pat rep _ _ hc, ih, if_neg hne]

/-! ## The escaped form of a string (claim C9) -/

theorem escape_stage1 (s : Str) : replaceAllL ['&'] entAmp s = s.flatMap esc1 := by
  rw [replaceAll_single]
  rfl

theorem escape_stage2 (s : Str) :
    replaceAllL ['<'] entLt (s.flatMap esc1) = s.flatMap esc2 := by
  rw [replaceAll_single, List.flatMap_assoc]
  have h : ∀ c, (esc1 c).flatMap (fun c => if c = '<' then entLt else [c]) = esc2 c := by
    intro c
    by_cases h1 : c = '&'
    · subst h1; simp only [esc1, esc2, if_pos rfl]; decide
    · by_cases h2 : c = '<' <;> simp [esc1, esc2, h1, h2]
  simp only [h]

theorem escape_stage3 (s : Str) :
    replaceAllL ['>'] entGt (s.flatMap esc2) = s.flatMap esc3 := by
  rw [replaceAll_single, List.flatMap_assoc]
  have h : ∀ c, (esc2 c).flatMap (fun c => if c = '>' then entGt else [c]) = esc3 c := by
    intro c
    by_cases h1 : c = '&'
    · subst h1; simp only [esc2, esc3, if_pos rfl]; decide
    · by_cases h2 : c = '<'
      · subst h2; simp only [esc2, esc3, h1, if_neg h1, if_pos rfl]; decide
      · by_cases h3 : c = '>' <;> simp [esc2, esc3, h1, h2, h3]
  simp only [h]

theorem escape_stage4 (s : Str) :
    replaceAllL ['"'] entQuot (s.flatMap esc3) = s.flatMap esc4 := by
  rw [replaceAll_single, List.flatMap_assoc]
  have h : ∀ c, (esc3 c).flatMap (fun c => if c = '"' then entQuot else [c]) = esc4 c := by
    intro c
    by_cases h1 : c = '&'
    · subst h1; simp only [esc3, esc4, if_pos rfl]; decide
    · by_cases h2 : c = '<'
      · subst h2; simp only [esc3, esc4, h1, if_neg h1, if_pos rfl]; decide
      · by_cases h3 : c = '>'
        · subst h3; simp only [esc3, esc4, h1, h2, if_neg h1, if_neg h2, if_pos rfl]; decide
        · by_cases h4 : c = '"' <;> simp [esc3, esc4, h1, h2, h3, h4]
  simp only [h]

theorem escape_stage5 (s : Str) :
    replaceAllL [aposChar] entApos (s.flatMap esc4) = s.flatMap escChar := by
  rw [replaceAll_single, List.flatMap_assoc]
  have h : ∀ c, (esc4 c).flatMap (fun c => if c = aposChar then entApos else [c]) = escChar c := by
    intro c
    by_cases h1 : c = '&'
    · subst h1; simp only [esc4, escChar, if_pos rfl]; decide
    · by_cases h2 : c = '<'
      · subst h2; simp only [esc4, escChar, h1, if_neg h1, if_pos rfl]; decide
      · by_cases h3 : c = '>'
        · subst h3; simp only [esc4, escChar, h1, h2, if_neg h1, if_neg h2, if_pos rfl]; decide
        · by_cases h4 : c = '"'
          · subst h4
            simp only [esc4, escChar, h1, h2, h3, if_neg h1, if_neg h2, if_neg h3, if_pos rfl]
            decide
          · by_cases h5 : c = aposChar
            · subst h5; decide
            · simp [esc4, escChar, h1, h2, h3, h4, h5]
  simp only [h]

theorem escapeHtml_eq_flatMap (s : Str) : escapeHtml s = s.flatMap escChar := by
  unfold escapeHtml
  rw [escape_stage1, escape_stage2, escape_stage3, escape_stage4, escape_stage5]

theorem skippable_entity_single (e1 e2 : Char) (rest : Str) (c : Char) (hc : c ≠ '&') :
    skippable ('&' :: e1 :: e2 :: rest) [c] = true := by
  simp [skippable, List.isPrefixOf, hc]

theorem unescape_stage1 (s : Str) :
    replaceAllL entLt ['<'] (s.flatMap escChar) = s.flatMap dec1 := by
  have hb : ∀ c, escChar c = entLt ∨ skippable entLt (escChar c) = true := by
    intro c
    by_cases h1 : c = '&'
    · subst h1; exact Or.inr (by decide)
    · by_cases h2 : c = '<'
      · subst h2; exact Or.inl (by decide)
      · by_cases h3 : c = '>'
        · subst h3; exact Or.inr (by decide)
        · by_cases h4 : c = '"'
          · subst h4; exact Or.inr (by decide)
          · by_cases h5 : c = aposChar
            · subst h5; exact Or.inr (by decide)
            · right
              have he : escChar c = [c] := by simp [escChar, h1, h2, h3, h4, h5]
              rw [he]
              exact skippable_entity_single 'l' 't' [';'] c h1
  rw [replaceAll_blocks entLt ['<'] escChar (by decide) hb s]
  have h : ∀ c, (if escChar c = entLt then ['<'] else escChar c) = dec1 c := by
    intro c
    by_cases h1 : c = '&'
    · subst h1; decide
    · by_cases h2 : c = '<'
      · subst h2; decide
      · by_cases h3 : c = '>'
        · subst h3; decide
        · by_cases h4 : c = '"'
          · subst h4; decide
          · by_cases h5 : c = aposChar
            · subst h5; decide
            · have he : escChar c = [c] := by simp [escChar, h1, h2, h3, h4, h5]
              have hd : dec1 c = [c] := by simp [dec1, h1, h2, h3, h4, h5]
              rw [he, hd, if_neg]
              simp [entLt]
  simp only [h]

theorem unescape_stage2 (s : Str) :
    replaceAllL entGt ['>'] (s.flatMap dec1) = s.flatMap dec2 := by
  have hb : ∀ c, dec1 c = entGt ∨ skippable entGt (dec1 c) = true := by
    intro c
    by_cases h1 : c = '&'
    · subst h1; exact Or.inr (by decide)
    · by_cases h2 : c = '<'
      · subst h2; exact Or.inr (by decide)
      · by_cases h3 : c = '>'
        · subst h3; exact Or.inl (by decide)
        · by_cases h4 : c = '"'
          · subst h4; exact Or.inr (by decide)
          · by_cases h5 : c = aposChar
            · subst h5; exact Or.inr (by decide)
            · right
              have he : dec1 c = [c] := by simp [dec1, h1, h2, h3, h4, h5]
              rw [he]
              exact skippable_entity_single 'g' 't' [';'] c h1
  rw [replaceAll_blocks entGt ['>'] dec1 (by decide) hb s]
  have h : ∀ c, (if dec1 c = entGt then ['>'] else dec1 c) = dec2 c := by
    intro c
    by_cases h1 : c = '&'
    · subst h1; decide
    · by_cases h2 : c = '<'
      · subst h2; decide
      · by_cases h3 : c = '>'
        · subst h3; decide
        · by_cases h4 : c = '"'
          · subst h4; decide
          · by_cases h5 : c = aposChar
            · subst h5; decide
            · have he : dec1 c = [c] := by simp [dec1, h1, h2, h3, h4, h5]
              have hd : dec2 c = [c] := by simp [dec2, h1, h3, h4, h5]
              rw [he, hd, if_neg]
              simp [entGt]
  simp only [h]

theorem unescape_stage3 (s : Str) :
    replaceAllL entQuot ['"'] (s.flatMap dec2) = s.flatMap dec3 := by
  have hb : ∀ c, dec2 c = entQuot ∨ skippable entQuot (dec2 c) = true := by
    intro c
    by_cases h1 : c = '&'
    · subst h1; exact Or.inr (by decide)
    · by_cases h3 : c = '>'
      · subst h3; exact Or.inr (by decide)
      · by_cases h4 : c = '"'
        · subst h4; exact Or.inl (by decide)
        · by_cases h5 : c = aposChar
          · subst h5; exact Or.inr (by decide)
          · right
            have he : dec2 c = [c] := by simp [dec2, h1, h3, h4, h5]
            rw [he]
            exact skippable_entity_single 'q' 'u' "ot;".data c h1
  rw [replaceAll_blocks entQuot ['"'] dec2 (by decide) hb s]
  have h : ∀ c, (if dec2 c = entQuot then ['"'] else dec2 c) = dec3 c := by
    intro c
    by_cases h1 : c = '&'
    · subst h1; decide
    · by_cases h3 : c = '>'
      · subst h3; decide
      · by_cases h4 : c = '"'
        · subst h4; decide
        · by_cases h5 : c = aposChar
          · subst h5; decide
          · have he : dec2 c = [c] := by simp [dec2, h1, h3, h4, h5]
            have hd : dec3 c = [c] := by simp [dec3, h1, h4, h5]
            rw [he, hd, if_neg]
            simp [entQuot]
  simp only [h]

theorem unescape_stage4 (s : Str) :
    replaceAllL entApos [aposChar] (s.flatMap dec3) = s.flatMap dec4 := by
  have hb : ∀ c, dec3 c = entApos ∨ skippable entApos (dec3 c) = true := by
    intro c
    by_cases h1 : c = '&'
    · subst h1; exact Or.inr (by decide)
    · by_cases h4 : c = '"'
      · subst h4; exact Or.inr (by decide)
      · by_cases h5 : c = aposChar
        · subst h5; exact Or.inl (by decide)
        · right
          have he : dec3 c = [c] := by simp [dec3, h1, h4, h5]
          rw [he]
          exact skippable_entity_single '#' '3' "9;".data c h1
  rw [replaceAll_blocks entApos [aposChar] dec3 (by decide) hb s]
  have h : ∀ c, (if dec3 c = entApos then [aposChar] else dec3 c) = dec4 c := by
    intro c
    by_cases h1 : c = '&'
    · subst h1; decide
    · by_cases h4 : c = '"'
      · subst h4; decide
      · by_cases h5 : c = aposChar
        · subst h5; decide
        · have he : dec3 c = [c] := by simp [dec3, h1, h4, h5]
          have hd : dec4 c = [c] := by simp [dec4, h1]
          rw [he, hd, if_neg]
          simp [entApos]
  simp only [h]

theorem unescape_stage5 (s : Str) :
    replaceAllL entAmp ['&'] (s.flatMap dec4) = s := by
  have hb : ∀ c, dec4 c = entAmp ∨ skippable entAmp (dec4 c) = true := by
    intro c
    by_cases h1 : c = '&'
    · subst h1; exact Or.inl (by decide)
    · right
      have he : dec4 c = [c] := by simp [dec4, h1]
      rw [he]
      exact skippable_entity_single 'a' 'm' "p;".data c h1
  rw [replaceAll_blocks entAmp ['&'] dec4 (by decide) hb s]
  have h : ∀ c, (if dec4 c = entAmp then ['&'] else dec4 c) = [c] := by
    intro c
    by_cases h1 : c = '&'
    · subst h1; decide
    · have he : dec4 c = [c] := by simp [dec4, h1]
      rw [he, if_neg]
      simp [entAmp]
  simp only [h]
  simp

theorem unescapeHtml_escapeHtml (s : Str) : unescapeHtml (escapeHtml s) = s := by
  rw [escapeHtml_eq_flatMap]
  unfold unescapeHtml
  rw [unescape_stage1, unescape_stage2, unescape_stage3, unescape_stage4, unescape_stage5]

theorem escapeHtml_no_raw (s : Str) :
    ∀ c ∈ escapeHtml s, c ≠ '<' ∧ c ≠ '>' ∧ c ≠ '"' ∧ c ≠ aposChar := by
  intro c hc
  rw [escapeHtml_eq_flatMap] at hc
  rcases List.mem_flatMap.mp hc with ⟨a, _, hmem⟩
  by_cases h1 : a = '&'
  · subst h1
    rw [(by decide : escChar '&' = entAmp)] at hmem
    exact (by decide : ∀ x ∈ entAmp, x ≠ '<' ∧ x ≠ '>' ∧ x ≠ '"' ∧ x ≠ aposChar) c hmem
  · by_cases h2 : a = '<'
    · subst h2
      rw [(by decide : escChar '<' = entLt)] at hmem
      exact (by decide : ∀ x ∈ entLt, x ≠ '<' ∧ x ≠ '>' ∧ x ≠ '"' ∧ x ≠ aposChar) c hmem
    · by_cases h3 : a = '>'
      · subst h3
        rw [(by decide : escChar '>' = entGt)] at hmem
        exact (by decide : ∀ x ∈ entGt, x ≠ '<' ∧ x ≠ '>' ∧ x ≠ '"' ∧ x ≠ aposChar) c hmem
      · by_cases h4 : a = '"'
        · subst h4
          rw [(by decide : escChar '"' = entQuot)] at hmem
          exact (by decide : ∀ x ∈ entQuot, x ≠ '<' ∧ x ≠ '>' ∧ x ≠ '"' ∧ x ≠ aposChar) c hmem
        · by_cases h5 : a = aposChar
          · subst h5
            rw [(by decide : escChar aposChar = entApos)] at hmem
            exact (by decide : ∀ x ∈ entApos, x ≠ '<' ∧ x ≠ '>' ∧ x ≠ '"' ∧ x ≠ aposChar) c hmem
          · have he : escChar a = [a] := by simp [escChar, h1, h2, h3, h4, h5]
            rw [he] at hmem
            have : c = a := by simpa using hmem
            subst this
            exact ⟨h2, h3, h4, h5⟩

/-- Claim C9: the output of `escapeHtml` contains no raw `<`, `>`, double
quote or apostrophe, and because the ampersand is replaced first, putting the
entities `&lt;`, `&gt;`, `&quot;`, `&#39;` and then `&amp;` back recovers the
input exactly. -/
theorem c9_escapeHtml_roundtrip : ∀ s : Str,
    (∀ c ∈ escapeHtml s, c ≠ '<' ∧ c ≠ '>' ∧ c ≠ '"' ∧ c ≠ aposChar)
    ∧ unescapeHtml (escapeHtml s) = s :=
  fun s => ⟨escapeHtml_no_raw s, unescapeHtml_escapeHtml s⟩

/-- Witness for C9 at a concrete string that contains all special characters
and a pre-existing entity. -/
theorem c9_escapeHtml_roundtrip_witness :
    ('<' ∉ escapeHtml "a<b>&lt;\"".data)
    ∧ unescapeHtml (escapeHtml "a<b>&lt;\"".data) = "a<b>&lt;\"".data :=
  ⟨fun hmem => ((c9_escapeHtml_roundtrip "a<b>&lt;\"".data).1 '<' hmem).1 rfl,
   (c9_escapeHtml_roundtrip "a<b>&lt;\"".data).2⟩

/-! ## Claim C2: cache freshness and probe order -/

theorem isFresh_ok_iff (m now T : ℤ) :
    isFresh (.ok m) now T = true ↔ (0 ≤ now - m ∧ now - m < T * 86400000) := by
  have hh : T * 24 * 60 * 60 * 1000 = T * 86400000 := by ring
  simp [isFresh, hh]

theorem probeGo_eq_find (pe : Str → Bool) (stat : Str → Except Unit ℤ) (now T : ℤ)
    (baseNoExt baseName : Str) :
    ∀ l : List Str, probeGo pe stat now T baseNoExt baseName l =
      (l.find? fun e => pe (baseNoExt ++ e) && isFresh (stat (baseNoExt ++ e)) now T).map
        fun e => { coverUrl := some (toCoverRoute (baseName ++ e)),
                   coverCachePath := some (baseNoExt ++ e) } := by
  intro l
  induction l with
  | nil => rfl
  | cons e rest ih =>
    simp only [probeGo, List.find?]
    by_cases h : (pe (baseNoExt ++ e) && isFresh (stat (baseNoExt ++ e)) now T) = true
    · simp [h]
    · simp only [Bool.not_eq_true] at h
      simp [h, ih]

/-- Claim C2: the freshness check accepts exactly ages `a` with
`0 ≤ a < T * 86400000` milliseconds (a stat failure is not fresh), and the
cache probe walks `.jpg`, `.png`, `.webp` in that fixed order, returning the
route and path of the first fresh hit: it equals `find?` over the extension
list, so later extensions do not influence the result once one hits. -/
theorem c2_freshness_and_probe_order :
    (∀ m now T : ℤ, isFresh (.ok m) now T = true ↔ (0 ≤ now - m ∧ now - m < T * 86400000))
    ∧ (∀ now T : ℤ, isFresh (.error ()) now T = false)
    ∧ coverExts = [".jpg".data, ".png".data, ".webp".data]
    ∧ (∀ (pe : Str → Bool) (stat : Str → Except Unit ℤ) (now T : ℤ)
        (baseNoExt baseName : Str) (l : List Str),
        probeGo pe stat now T baseNoExt baseName l =
          (l.find? fun e => pe (baseNoExt ++ e) && isFresh (stat (baseNoExt ++ e)) now T).map
            fun e => { coverUrl := some (toCoverRoute (baseName ++ e)),
                       coverCachePath := some (baseNoExt ++ e) }) :=
  ⟨isFresh_ok_iff, fun _ _ => rfl, rfl,
   fun pe stat now T baseNoExt baseName l => probeGo_eq_find pe stat now T baseNoExt baseName l⟩

/-! ## Claims C4 and C5: artwork source selection -/

theorem jsTrim_nil : jsTrim [] = [] := rfl

/-- Counterexample to claim C4: with no cover URL, a whitespace-only
configured search term, and a non-blank title, the code performs no search
at all (`JavaScript ||` keeps the whitespace term, which trims to empty),
while the claim says the search runs with the title `My Podcast`. -/
theorem c4_search_term_counterexample :
    decideArtwork [] " ".data "My Podcast".data "foo".data (fun _ => some "url".data)
      = (none, false) := by decide

/-- Claim C4 as amended: the term is the JavaScript `||` choice — the first
argument that is non-empty *before* trimming — and the search runs only when
the trimmed choice is non-empty; a whitespace-only configured search term
therefore suppresses the search instead of falling through to the title. -/
theorem c4_amended_term_choice (cst title dn : Str) (f : Str → Option Str) :
    (cst ≠ [] → decideArtwork [] cst title dn f =
      (if jsTrim cst = [] then (none, false) else (f (jsTrim cst), true)))
    ∧ (cst = [] → title ≠ [] → decideArtwork [] cst title dn f =
      (if jsTrim title = [] then (none, false) else (f (jsTrim title), true)))
    ∧ (cst = [] → title = [] → decideArtwork [] cst title dn f =
      (if jsTrim dn = [] then (none, false) else (f (jsTrim dn), true))) := by
  refine ⟨fun h => ?_, fun h h2 => ?_, fun h h2 => ?_⟩ <;>
    [skip; subst h; (subst h; subst h2)]
  · by_cases ht : jsTrim cst = [] <;> simp [decideArtwork, jsOrS, jsTrim_nil, h, ht]
  · by_cases ht : jsTrim title = [] <;> simp [decideArtwork, jsOrS, jsTrim_nil, h2, ht]
  · by_cases ht : jsTrim dn = [] <;> simp [decideArtwork, jsOrS, jsTrim_nil, ht]

/-- Witness for the amended C4 at a concrete padded search term. -/
theorem c4_amended_term_choice_witness :
    decideArtwork [] " term ".data "T".data "d".data (fun t => some t)
      = (some "term".data, true) := by
  have h := (c4_amended_term_choice " term ".data "T".data "d".data (fun t => some t)).1
    (by decide)
  rw [h]
  decide

/-- Counterexample to claim C5: a whitespace-only configured `coverImageUrl`
falls through to the remote search (second component `true` records that the
search ran), contradicting `never performs a remote search call`. -/
theorem c5_direct_url_counterexample :
    decideArtwork " ".data [] "T".data "d".data (fun _ => some "u".data)
      = (some "u".data, true) := by decide

/-- Claim C5 as amended: when the configured cover URL is non-empty after
trimming, the resolver uses the trimmed URL (not the verbatim one) as the
artwork source and performs no remote search; a blank or whitespace-only
URL falls through to the search path. -/
theorem c5_amended_direct_url (cover cst title dn : Str) (f : Str → Option Str)
    (h : jsTrim cover ≠ []) :
    decideArtwork cover cst title dn f = (some (jsTrim cover), false) := by
  simp [decideArtwork, h]

/-- Witness for the amended C5 at a concrete padded URL. -/
theorem c5_amended_direct_url_witness :
    decideArtwork " http://e/c.png ".data [] "T".data "d".data (fun _ => none)
      = (some "http://e/c.png".data, false) := by
  rw [c5_amended_direct_url " http://e/c.png ".data [] "T".data "d".data (fun _ => none)
    (by decide)]
  decide

/-! ## Claims C1 and C3: the write-then-cleanup sequence -/

theorem guessExtFromUrl_mem (url : Str) : guessExtFromUrl url ∈ coverExts := by
  simp only [guessExtFromUrl]
  split_ifs <;> simp [coverExts]

theorem cleanupGo_mono (removeOk : Str → Bool) (base keep : Str) :
    ∀ (l : List Str) (fs : FS) (r : Except Unit Unit) (fs' : FS),
      cleanupGo removeOk base keep fs l = (r, fs') →
      ∀ q, fs' q = true → fs q = true := by
  intro l
  induction l with
  | nil =>
    intro fs r fs' h q hq
    injection h with h1 h2
    rw [h2]; exact hq
  | cons e rest ih =>
    intro fs r fs' h q hq
    simp only [cleanupGo] at h
    by_cases hek : e = keep
    · rw [if_pos hek] at h
      exact ih fs r fs' h q hq
    · rw [if_neg hek] at h
      by_cases hex : fs (base ++ e) = true
      · rw [if_pos hex] at h
        by_cases hro : removeOk (base ++ e) = true
        · rw [if_pos hro] at h
          have := ih _ r fs' h q hq
          unfold updFS at this
          by_cases hq' : q = base ++ e
          · rw [if_pos hq'] at this; exact absurd this (by simp)
          · rw [if_neg hq'] at this; exact this
        · rw [if_neg hro] at h
          injection h with h1 h2
          rw [h2]; exact hq
      · rw [if_neg hex] at h
        exact ih fs r fs' h q hq

theorem cleanupGo_ok_removed (removeOk : Str → Bool) (base keep : Str) :
    ∀ (l : List Str) (fs : FS) (fs' : FS),
      cleanupGo removeOk base keep fs l = (.ok (), fs') →
      ∀ e ∈ l, e ≠ keep → fs' (base ++ e) = false := by
  intro l
  induction l with
  | nil => intro fs fs' _ e he; exact absurd he (List.not_mem_nil e)
  | cons e rest ih =>
    intro fs fs' h e' he' hne
    simp only [cleanupGo] at h
    rcases List.mem_cons.mp he' with he'' | he''
    · subst he''
      rw [if_neg hne] at h
      by_cases hex : fs (base ++ e') = true
      · rw [if_pos hex] at h
        by_cases hro : removeOk (base ++ e') = true
        · rw [if_pos hro] at h
          have hmono := cleanupGo_mono removeOk base keep rest _ _ _ h (base ++ e')
          by_cases hv : fs' (base ++ e') = true
          · have := hmono hv
            unfold updFS at this
            rw [if_pos rfl] at this
            exact absurd this (by simp)
          · simpa using hv
        · rw [if_neg hro] at h
          exact absurd h (by simp)
      · rw [if_neg hex] at h
        have hmono := cleanupGo_mono removeOk base keep rest _ _ _ h (base ++ e')
        by_cases hv : fs' (base ++ e') = true
        · exact absurd (hmono hv) hex
        · simpa using hv
    · by_cases hek : e = keep
      · rw [if_pos hek] at h
        exact ih fs fs' h e' he'' hne
      · rw [if_neg hek] at h
        by_cases hex : fs (base ++ e) = true
        · rw [if_pos hex] at h
          by_cases hro : removeOk (base ++ e) = true
          · rw [if_pos hro] at h
            exact ih _ fs' h e' he'' hne
          · rw [if_neg hro] at h
            exact absurd h (by simp)
        · rw [if_neg hex] at h
          exact ih fs fs' h e' he'' hne

/-- Counterexample to claim C1 as stated: the download and the cache write
both succeed (`dlOk`), but the removal of the stale `.png` variant fails,
so afterwards both `b.jpg` and `b.png` exist — two cached files, not at
most one. -/
theorem c1_counterexample :
    (downloadToFile dlOk fsPngOnly "http://x/a.jpg".data
        ("b".data ++ guessExtFromUrl "http://x/a.jpg".data)).1 = Except.ok ()
    ∧ coverCount
        (coverFinalize dlOk removeNone fsPngOnly "http://x/a.jpg".data "b".data "b".data).2
        "b".data = 2 :=
  ⟨rfl, by decide⟩

/-- Claim C1 as amended: whenever the whole write-then-cleanup sequence
succeeds — equivalently, whenever `resolveCoverForSource`'s final block
returns the new route rather than the empty result — at most one cached
cover file exists for the base path across the three extensions. -/
theorem c1_amended_unique_cover (dl : DlWorld) (removeOk : Str → Bool) (fs : FS)
    (url baseNoExt baseName : Str) (r : CoverResult) (fs' : FS)
    (hrun : coverFinalize dl removeOk fs url baseNoExt baseName = (r, fs'))
    (hne : r ≠ emptyResult) :
    coverCount fs' baseNoExt ≤ 1 := by
  simp only [coverFinalize] at hrun
  rcases hd : downloadToFile dl fs url (baseNoExt ++ guessExtFromUrl url) with ⟨d, fs1⟩
  rw [hd] at hrun
  cases d with
  | error e =>
    dsimp only at hrun
    injection hrun with h1 h2
    exact absurd h1.symm hne
  | ok u =>
    dsimp only at hrun
    rcases hc : cleanupOldVariants fs1 removeOk baseNoExt (guessExtFromUrl url) with ⟨c, fs2⟩
    rw [hc] at hrun
    cases c with
    | error e =>
      dsimp only at hrun
      injection hrun with h1 h2
      exact absurd h1.symm hne
    | ok u' =>
      dsimp only at hrun
      injection hrun with h1 h2
      subst h2
      unfold cleanupOldVariants at hc
      have hrem := cleanupGo_ok_removed removeOk baseNoExt (guessExtFromUrl url)
        coverExts fs1 fs2 hc
      have hmem := guessExtFromUrl_mem url
      simp only [coverExts, List.mem_cons, List.not_mem_nil, or_false] at hmem
      rcases hmem with hjpg | hpng | hwebp
      · have h2 : fs2 (baseNoExt ++ ".png".data) = false :=
          hrem ".png".data (by simp [coverExts]) (by rw [hjpg]; decide)
        have h3 : fs2 (baseNoExt ++ ".webp".data) = false :=
          hrem ".webp".data (by simp [coverExts]) (by rw [hjpg]; decide)
        unfold coverCount coverExts
        simp only [List.filter, h2, h3]
        cases hfs : fs2 (baseNoExt ++ ".jpg".data) <;> simp
      · have h2 : fs2 (baseNoExt ++ ".jpg".data) = false :=
          hrem ".jpg".data (by simp [coverExts]) (by rw [hpng]; decide)
        have h3 : fs2 (baseNoExt ++ ".webp".data) = false :=
          hrem ".webp".data (by simp [coverExts]) (by rw [hpng]; decide)
        unfold coverCount coverExts
        simp only [List.filter, h2, h3]
        cases hfs : fs2 (baseNoExt ++ ".png".data) <;> simp
      · have h2 : fs2 (baseNoExt ++ ".jpg".data) = false :=
          hrem ".jpg".data (by simp [coverExts]) (by rw [hwebp]; decide)
        have h3 : fs2 (baseNoExt ++ ".png".data) = false :=
          hrem ".png".data (by simp [coverExts]) (by rw [hwebp]; decide)
        unfold coverCount coverExts
        simp only [List.filter, h2, h3]
        cases hfs : fs2 (baseNoExt ++ ".webp".data) <;> simp

/-- Witness for the amended C1: a fully successful run over a cache that
held a stale `.png` leaves at most one file. -/
theorem c1_amended_unique_cover_witness :
    coverCount
      (coverFinalize dlOk removeAll fsPngOnly "http://x/a.jpg".data "b".data "b".data).2
      "b".data ≤ 1 :=
  c1_amended_unique_cover dlOk removeAll fsPngOnly "http://x/a.jpg".data "b".data "b".data
    (coverFinalize dlOk removeAll fsPngOnly "http://x/a.jpg".data "b".data "b".data).1
    (coverFinalize dlOk removeAll fsPngOnly "http://x/a.jpg".data "b".data "b".data).2
    rfl (by decide)

/-- Counterexample to claim C3: download and write succeed, the `.png`
removal fails; `cleanupOldVariants` has no internal `try`, so the exception
escalates to the resolver's `catch`, which returns the empty result — not
the new cover route. -/
theorem c3_counterexample :
    (coverFinalize dlOk removeNone fsPngOnly "http://x/a.jpg".data "b".data "b".data).1
      = emptyResult := by decide

/-- Claim C3 as amended: a failed stale-variant delete is escalated out of
`cleanupOldVariants` and absorbed by `resolveCoverForSource`'s `catch`: the
resolver does not raise, but it returns the empty result `{}` instead of the
new route. -/
theorem c3_amended_cleanup_failure (dl : DlWorld) (removeOk : Str → Bool) (fs : FS)
    (url baseNoExt baseName : Str) (fs1 fs2 : FS)
    (hdl : downloadToFile dl fs url (baseNoExt ++ guessExtFromUrl url) = (.ok (), fs1))
    (hcl : cleanupOldVariants fs1 removeOk baseNoExt (guessExtFromUrl url)
      = (.error (), fs2)) :
    coverFinalize dl removeOk fs url baseNoExt baseName = (emptyResult, fs2) := by
  simp only [coverFinalize]
  rw [hdl]
  dsimp only
  rw [hcl]

/-- Witness for the amended C3 at the concrete failing cache. -/
theorem c3_amended_cleanup_failure_witness :
    coverFinalize dlOk removeNone fsPngOnly "http://x/a.jpg".data "b".data "b".data
      = (emptyResult, updFS fsPngOnly "b.jpg".data true) :=
  c3_amended_cleanup_failure dlOk removeNone fsPngOnly "http://x/a.jpg".data "b".data "b".data
    (updFS fsPngOnly "b.jpg".data true) (updFS fsPngOnly "b.jpg".data true) rfl rfl

/-! ## Claim C6: the resolver never raises -/

theorem coverFinalize_fetchThrow (dl : DlWorld) (removeOk : Str → Bool) (fs : FS)
    (url baseNoExt baseName : Str) (h : dl.fetchFor url = FetchOutcome.fetchThrow) :
    coverFinalize dl removeOk fs url baseNoExt baseName = (emptyResult, fs) := by
  simp only [coverFinalize, downloadToFile, h]

/-- Claim C6: `resolveCoverForSource` never raises — for every configuration
of its collaborators (stat errors, network errors, timeouts, malformed JSON,
write errors, remove errors) it returns `.ok`; moreover when no fresh cache
hit exists and every download fetch fails, the result degrades to the empty
record with the file system untouched. -/
theorem c6_resolver_never_raises :
    (∀ (env : CoverEnv) (w : CoverWorld) (src : SourceCfg),
      ∃ r fsOut, resolveCoverForSource env w src = .ok (r, fsOut))
    ∧ (∀ (env : CoverEnv) (w : CoverWorld) (src : SourceCfg),
        probeGo w.fs0 w.statMtime w.now env.ttlDays
            (pathJoin (coversDir w.cwd) src.dirName) src.dirName coverExts = none →
        (∀ u, w.dl.fetchFor u = FetchOutcome.fetchThrow) →
        resolveCoverForSource env w src = .ok (emptyResult, w.fs0)) := by
  constructor
  · intro env w src
    simp only [resolveCoverForSource]
    split
    · exact ⟨_, _, rfl⟩
    · cases hp : probeGo w.fs0 w.statMtime w.now env.ttlDays
          (pathJoin (coversDir w.cwd) src.dirName) src.dirName coverExts with
      | some hit => exact ⟨_, _, rfl⟩
      | none =>
        dsimp only
        rcases hda : decideArtwork src.coverImageUrl src.coverSearchTerm src.title src.dirName
            (fun term => itunesSearchArtwork (w.searchFetch term)) with ⟨art, searched⟩
        cases art with
        | none => exact ⟨_, _, rfl⟩
        | some url => exact ⟨_, _, rfl⟩
  · intro env w src hprobe hfetch
    simp only [resolveCoverForSource]
    split
    · rfl
    · rw [hprobe]
      dsimp only
      rcases hda : decideArtwork src.coverImageUrl src.coverSearchTerm src.title src.dirName
          (fun term => itunesSearchArtwork (w.searchFetch term)) with ⟨art, searched⟩
      cases art with
      | none => rfl
      | some url =>
        dsimp only
        rw [coverFinalize_fetchThrow w.dl w.removeOk w.fs0 url _ _ (hfetch url)]

/-- Witness for C6 at a concrete world in which every collaborator fails. -/
theorem c6_resolver_never_raises_witness :
    resolveCoverForSource envAllFail worldAllFail srcC6 = .ok (emptyResult, worldAllFail.fs0) :=
  c6_resolver_never_raises.2 envAllFail worldAllFail srcC6 (by decide) (fun _ => rfl)

/-! ## Claim C7: byte formatting -/

theorem fbLoop_step_eq (f : Nat) (n : ℚ) (i : Nat) :
    fbLoop (f + 1) n i =
      if 1024 ≤ n ∧ i < 4 then fbLoop f (n / 1024) (i + 1) else (n, i) := rfl

theorem fbLoop_1024 : fbLoop 4 1024 0 = (1, 1) := by
  rw [show (4 : Nat) = 3 + 1 from rfl, fbLoop_step_eq, if_pos (by norm_num)]
  rw [show (1024 : ℚ) / 1024 = 1 by norm_num]
  rw [show (3 : Nat) = 2 + 1 from rfl, fbLoop_step_eq, if_neg (by norm_num)]

theorem fbLoop_1536 : fbLoop 4 1536 0 = (3 / 2, 1) := by
  rw [show (4 : Nat) = 3 + 1 from rfl, fbLoop_step_eq, if_pos (by norm_num)]
  rw [show (1536 : ℚ) / 1024 = 3 / 2 by norm_num]
  rw [show (3 : Nat) = 2 + 1 from rfl, fbLoop_step_eq, if_neg (by norm_num)]

theorem fbLoop_2048 : fbLoop 4 2048 0 = (2, 1) := by
  rw [show (4 : Nat) = 3 + 1 from rfl, fbLoop_step_eq, if_pos (by norm_num)]
  rw [show (2048 : ℚ) / 1024 = 2 by norm_num]
  rw [show (3 : Nat) = 2 + 1 from rfl, fbLoop_step_eq, if_neg (by norm_num)]

theorem fbLoop_10240 : fbLoop 4 10240 0 = (10, 1) := by
  rw [show (4 : Nat) = 3 + 1 from rfl, fbLoop_step_eq, if_pos (by norm_num)]
  rw [show (10240 : ℚ) / 1024 = 10 by norm_num]
  rw [show (3 : Nat) = 2 + 1 from rfl, fbLoop_step_eq, if_neg (by norm_num)]

theorem fbLoop_1048576 : fbLoop 4 1048576 0 = (1, 2) := by
  rw [show (4 : Nat) = 3 + 1 from rfl, fbLoop_step_eq, if_pos (by norm_num)]
  rw [show (1048576 : ℚ) / 1024 = 1024 by norm_num]
  rw [show (3 : Nat) = 2 + 1 from rfl, fbLoop_step_eq, if_pos (by norm_num)]
  rw [show (1024 : ℚ) / 1024 = 1 by norm_num]
  rw [show (2 : Nat) = 1 + 1 from rfl, fbLoop_step_eq, if_neg (by norm_num)]

theorem toFixed_eval (d : Nat) (q : ℚ) (a : ℤ) (b : Nat)
    (hn : (q * (10 : ℚ) ^ d + 1 / 2).num = a) (hd : (q * (10 : ℚ) ^ d + 1 / 2).den = b) :
    toFixed d q =
      if d = 0 then (Nat.repr (a.fdiv (b : ℤ)).toNat).data
      else (Nat.repr ((a.fdiv (b : ℤ)).toNat / 10 ^ d)).data
        ++ '.' :: natPadLeft d (Nat.repr ((a.fdiv (b : ℤ)).toNat % 10 ^ d)).data := by
  simp only [toFixed, ratFloor, hn, hd]

theorem toFixed_2_1 : toFixed 2 1 = "1.00".data := by
  rw [toFixed_eval 2 1 201 2 (by norm_num) (by norm_num)]
  decide

theorem toFixed_2_3half : toFixed 2 (3 / 2) = "1.50".data := by
  rw [toFixed_eval 2 (3 / 2) 301 2 (by norm_num) (by norm_num)]
  decide

theorem toFixed_2_2 : toFixed 2 2 = "2.00".data := by
  rw [toFixed_eval 2 2 401 2 (by norm_num) (by norm_num)]
  decide

theorem toFixed_1_10 : toFixed 1 10 = "10.0".data := by
  rw [toFixed_eval 1 10 201 2 (by norm_num) (by norm_num)]
  decide

theorem formatBytes_pos_eval (b n : ℚ) (i : Nat) (hb : 0 < b)
    (hloop : fbLoop 4 b 0 = (n, i)) :
    formatBytes (JSNum.finite b)
      = toFixed (if i = 0 then 0 else if 10 ≤ n then 1 else 2) n
        ++ ' ' :: fbUnits.getD i [] := by
  simp [formatBytes, not_le.mpr hb, hloop]

theorem formatBytes_1024_eq : formatBytes (JSNum.finite 1024) = "1.00 KB".data := by
  rw [formatBytes_pos_eval 1024 1 1 (by norm_num) fbLoop_1024,
    if_neg (by norm_num), if_neg (by norm_num), toFixed_2_1]
  decide

theorem formatBytes_1536_eq : formatBytes (JSNum.finite 1536) = "1.50 KB".data := by
  rw [formatBytes_pos_eval 1536 (3 / 2) 1 (by norm_num) fbLoop_1536,
    if_neg (by norm_num), if_neg (by norm_num), toFixed_2_3half]
  decide

theorem formatBytes_2048_eq : formatBytes (JSNum.finite 2048) = "2.00 KB".data := by
  rw [formatBytes_pos_eval 2048 2 1 (by norm_num) fbLoop_2048,
    if_neg (by norm_num), if_neg (by norm_num), toFixed_2_2]
  decide

theorem formatBytes_10240_eq : formatBytes (JSNum.finite 10240) = "10.0 KB".data := by
  rw [formatBytes_pos_eval 10240 10 1 (by norm_num) fbLoop_10240,
    if_neg (by norm_num), if_pos (by norm_num), toFixed_1_10]
  decide

/-- Counterexample to claim C7: at 2048 bytes the scaled value 2 KB is below
10 of its unit, and the code (in accordance with the claim's own example
values, but against its stated decimals rule) renders two decimal places,
`2.00 KB`, not one. -/
theorem c7_decimal_places_counterexample :
    formatBytes (JSNum.finite 2048) = "2.00 KB".data
    ∧ "2.00 KB".data ≠ "2.0 KB".data := ⟨formatBytes_2048_eq, by decide⟩

/-- Claim C7 as amended: non-finite or non-positive inputs render as `0 B`;
otherwise the value is divided by 1024 while at least 1024 and a larger unit
remains; formatting uses 0 decimal places at the B scale, **1 decimal place
at or above 10 of a unit, else 2 decimal places**; and the four example
values evaluate as claimed. -/
theorem c7_amended_formatBytes :
    (formatBytes JSNum.nan = "0 B".data ∧ formatBytes JSNum.posInf = "0 B".data
      ∧ formatBytes JSNum.negInf = "0 B".data)
    ∧ (∀ q : ℚ, q ≤ 0 → formatBytes (JSNum.finite q) = "0 B".data)
    ∧ (formatBytes (JSNum.finite 0) = "0 B".data
      ∧ formatBytes (JSNum.finite 1024) = "1.00 KB".data
      ∧ formatBytes (JSNum.finite 1536) = "1.50 KB".data
      ∧ formatBytes (JSNum.finite (10 * 1024)) = "10.0 KB".data)
    ∧ (∀ q : ℚ, 0 < q → q < 1024 →
        formatBytes (JSNum.finite q) = toFixed 0 q ++ ' ' :: "B".data)
    ∧ (∀ (q n : ℚ) (i : Nat), 0 < q → fbLoop 4 q 0 = (n, i) → i ≠ 0 → 10 ≤ n →
        formatBytes (JSNum.finite q) = toFixed 1 n ++ ' ' :: fbUnits.getD i [])
    ∧ (∀ (q n : ℚ) (i : Nat), 0 < q → fbLoop 4 q 0 = (n, i) → i ≠ 0 → n < 10 →
        formatBytes (JSNum.finite q) = toFixed 2 n ++ ' ' :: fbUnits.getD i []) := by
  have h10240 : formatBytes (JSNum.finite (10 * 1024)) = "10.0 KB".data := by
    rw [show ((10 : ℚ) * 1024) = 10240 by norm_num]
    exact formatBytes_10240_eq
  refine ⟨⟨rfl, rfl, rfl⟩, ?_,
    ⟨by norm_num [formatBytes], formatBytes_1024_eq, formatBytes_1536_eq, h10240⟩,
    ?_, ?_, ?_⟩
  · intro q hq
    simp [formatBytes, hq]
  · intro q hq hlt
    have h1 : ¬ q ≤ 0 := not_le.mpr hq
    have h2 : fbLoop 4 q 0 = (q, 0) := by
      have hcond : ¬ ((1024 : ℚ) ≤ q ∧ (0 : Nat) < 4) := by
        rintro ⟨hc, _⟩
        exact absurd hc (not_le.mpr hlt)
      show (if (1024 : ℚ) ≤ q ∧ (0 : Nat) < 4 then fbLoop 3 (q / 1024) (0 + 1)
        else (q, 0)) = (q, 0)
      exact if_neg hcond
    simp [formatBytes, h1, h2, fbUnits]
  · intro q n i hq hloop hi hge
    have h1 : ¬ q ≤ 0 := not_le.mpr hq
    simp [formatBytes, h1, hloop, hi, hge]
  · intro q n i hq hloop hi hlt
    have h1 : ¬ q ≤ 0 := not_le.mpr hq
    have h2 : ¬ (10 : ℚ) ≤ n := not_le.mpr hlt
    simp [formatBytes, h1, hloop, hi, h2]

/-- Witness for the amended C7 across its conditional conjuncts. -/
theorem c7_amended_formatBytes_witness :
    formatBytes (JSNum.finite (-5)) = "0 B".data
    ∧ formatBytes (JSNum.finite 500) = toFixed 0 500 ++ ' ' :: "B".data
    ∧ formatBytes (JSNum.finite 10240) = toFixed 1 10 ++ ' ' :: fbUnits.getD 1 []
    ∧ formatBytes (JSNum.finite 1048576) = toFixed 2 1 ++ ' ' :: fbUnits.getD 2 [] := by
  refine ⟨c7_amended_formatBytes.2.1 (-5) (by norm_num),
    c7_amended_formatBytes.2.2.2.1 500 (by norm_num) (by norm_num),
    c7_amended_formatBytes.2.2.2.2.1 10240 10 1 (by norm_num) fbLoop_10240 (by decide)
      (by norm_num),
    c7_amended_formatBytes.2.2.2.2.2 1048576 1 2 (by norm_num) fbLoop_1048576 (by decide)
      (by norm_num)⟩

/-! ## Claim C8: the Notes section -/

theorem notesHeader_not_mem_base (cfgTitle : Str) (ep : EpisodeIn) (episodeUrl : Str)
    (size : JSNum) (atts : List Attachment) :
    notesHeader ∉ basePartsOf cfgTitle ep episodeUrl size atts := by
  intro h
  by_cases hat : atts = [] <;>
    simp [basePartsOf, attachmentLinkLi, notesHeader, hat] at h

theorem notesHeader_not_mem_images (images : List Attachment) :
    notesHeader ∉ imagesHeader :: images.map imageBlock := by
  intro h
  simp [notesHeader, imagesHeader, imageBlock] at h

set_option maxRecDepth 100000 in
/-- Counterexample to claim C8: a text attachment with the non-empty,
whitespace-only inline text produces no `<pre>` block at all (the code trims
before the emptiness test), while the claim promises a `<pre>` block of the
escaped inline text for every text attachment whose inline text is
non-empty. -/
theorem c8_notes_counterexample :
    attWS.kind = AttachKind.text ∧ attWS.inlineText = some " ".data
    ∧ (" ".data : Str) ≠ []
    ∧ ("<pre>".data ++ escapeHtml " ".data ++ "</pre>".data)
        ∉ buildHtmlParts "T".data epWS "eu".data (JSNum.finite 0) [attWS]
          InlineMode.imAll := by decide

set_option maxRecDepth 1000000 in
/-- Claim C8 as amended: in full mode the Notes section header is emitted
iff the inlining setting is `all` and a text-kind attachment exists; each
text attachment contributes its link, followed by a `<pre>` block of the
HTML-escaped **trimmed** truncated inline text when that trimmed text is
non-empty, and the link alone otherwise; and for the concrete `ep1.mp3` +
`ep1.md` episode, `all` inlining yields HTML containing the Notes header and
the escaped file contents, while `images` inlining yields no Notes header. -/
theorem c8_amended_notes_section :
    (∀ (cfgTitle : Str) (ep : EpisodeIn) (episodeUrl : Str) (size : JSNum)
        (atts : List Attachment) (inline : InlineMode),
      notesHeader ∈ buildHtmlParts cfgTitle ep episodeUrl size atts inline
        ↔ (inline = InlineMode.imAll
            ∧ atts.filter (fun a => decide (a.kind = AttachKind.text)) ≠ []))
    ∧ (∀ a : Attachment, noteParts a =
        if jsTrim (a.inlineText.getD []) = [] then [noteLink a]
        else [noteLink a,
          "<pre>".data ++ escapeHtml (jsTrim (a.inlineText.getD [])) ++ "</pre>".data])
    ∧ containsSeq notesHeader snAllEp1.html = true
    ∧ containsSeq ("<pre>".data ++ escapeHtml "hello <notes>".data ++ "</pre>".data)
        snAllEp1.html = true
    ∧ containsSeq notesHeader snImagesEp1.html = false := by
  refine ⟨?_, fun a => rfl, by decide, by decide, by decide⟩
  intro cfgTitle ep episodeUrl size atts inline
  unfold buildHtmlParts
  rw [List.mem_append]
  constructor
  · rintro (h | h)
    · exact absurd h (notesHeader_not_mem_base cfgTitle ep episodeUrl size atts)
    · simp only [extraPartsOf] at h
      split at h
      · rcases List.mem_append.mp h with h | h
        · split at h
          · exact absurd h (notesHeader_not_mem_images _)
          · exact absurd h (List.not_mem_nil _)
        · split at h
          case isTrue htx => exact ⟨htx.2, htx.1⟩
          case isFalse => exact absurd h (List.not_mem_nil _)
      · exact absurd h (List.not_mem_nil _)
  · rintro ⟨hall, htx⟩
    have hatts : atts ≠ [] := by
      intro he; subst he; simp at htx
    right
    simp only [extraPartsOf]
    rw [if_pos ⟨hatts, by rw [hall]; decide⟩]
    rw [List.mem_append]
    right
    rw [if_pos ⟨htx, hall⟩]
    exact List.mem_cons_self _ _

/-! ## Claim C10: shownotes HTML is never empty -/

theorem shownotes_title_html (fw : FileWorld) (cfgTitle dirName dirPath : Str)
    (ep : EpisodeIn) (episodeUrl : Str) (size : JSNum) (baseUrl : Str)
    (inline : InlineMode) (maxC : Nat) :
    (buildEpisodeShownotes fw cfgTitle dirName dirPath ep episodeUrl size baseUrl
        ShowMode.mTitle inline maxC).html
      = "<p>".data ++ escapeHtml ep.title ++ "</p>".data := by
  simp [buildEpisodeShownotes]

theorem shownotes_full_html (fw : FileWorld) (cfgTitle dirName dirPath : Str)
    (ep : EpisodeIn) (episodeUrl : Str) (size : JSNum) (baseUrl : Str)
    (inline : InlineMode) (maxC : Nat) :
    ∃ rest : List Str,
      (buildEpisodeShownotes fw cfgTitle dirName dirPath ep episodeUrl size baseUrl
          ShowMode.mFull inline maxC).html
        = strJoin (("<p><strong>".data ++ escapeHtml ep.title ++ "</strong></p>".data)
            :: "<ul>".data :: rest) :=
  ⟨_, rfl⟩

theorem shownotes_html_ne_nil (fw : FileWorld) (cfgTitle dirName dirPath : Str)
    (ep : EpisodeIn) (episodeUrl : Str) (size : JSNum) (baseUrl : Str)
    (mode : ShowMode) (inline : InlineMode) (maxC : Nat) :
    (buildEpisodeShownotes fw cfgTitle dirName dirPath ep episodeUrl size baseUrl
        mode inline maxC).html ≠ [] := by
  cases mode with
  | mTitle =>
    rw [shownotes_title_html]
    simp
  | mFull =>
    obtain ⟨rest, hr⟩ := shownotes_full_html fw cfgTitle dirName dirPath ep episodeUrl
      size baseUrl inline maxC
    rw [hr]
    simp [strJoin]

/-- Claim C10: `buildEpisodeShownotes` returns non-empty HTML for every
episode in both modes — title mode yields the escaped-title paragraph, full
mode begins with the title paragraph and the `<ul>` list — so the
`shownotes.html || fallback` expression of `generateFeed` always keeps
`shownotes.html`. -/
theorem c10_shownotes_html_nonempty :
    (∀ (fw : FileWorld) (cfgTitle dirName dirPath : Str) (ep : EpisodeIn)
        (episodeUrl : Str) (size : JSNum) (baseUrl : Str) (inline : InlineMode)
        (maxC : Nat),
      (buildEpisodeShownotes fw cfgTitle dirName dirPath ep episodeUrl size baseUrl
          ShowMode.mTitle inline maxC).html
        = "<p>".data ++ escapeHtml ep.title ++ "</p>".data)
    ∧ (∀ (fw : FileWorld) (cfgTitle dirName dirPath : Str) (ep : EpisodeIn)
        (episodeUrl : Str) (size : JSNum) (baseUrl : Str) (inline : InlineMode)
        (maxC : Nat),
      ∃ rest : List Str,
        (buildEpisodeShownotes fw cfgTitle dirName dirPath ep episodeUrl size baseUrl
            ShowMode.mFull inline maxC).html
          = strJoin (("<p><strong>".data ++ escapeHtml ep.title ++ "</strong></p>".data)
              :: "<ul>".data :: rest))
    ∧ (∀ (fw : FileWorld) (cfgTitle dirName dirPath : Str) (ep : EpisodeIn)
        (episodeUrl : Str) (size : JSNum) (baseUrl : Str) (mode : ShowMode)
        (inline : InlineMode) (maxC : Nat),
      (buildEpisodeShownotes fw cfgTitle dirName dirPath ep episodeUrl size baseUrl
          mode inline maxC).html ≠ []
      ∧ jsOrS
          (buildEpisodeShownotes fw cfgTitle dirName dirPath ep episodeUrl size baseUrl
            mode inline maxC).html
          ("<p>".data ++ escapeHtml ep.title ++ "</p>".data)
        = (buildEpisodeShownotes fw cfgTitle dirName dirPath ep episodeUrl size baseUrl
            mode inline maxC).html) := by
  refine ⟨shownotes_title_html, shownotes_full_html, ?_⟩
  intro fw cfgTitle dirName dirPath ep episodeUrl size baseUrl mode inline maxC
  have hne := shownotes_html_ne_nil fw cfgTitle dirName dirPath ep episodeUrl size baseUrl
    mode inline maxC
  exact ⟨hne, by simp [jsOrS, hne]⟩

/-- Witness for C2: the freshness equivalence instantiated at a concrete
age of five milliseconds under a 3-day TTL. -/
theorem c2_freshness_and_probe_order_witness : isFresh (.ok 5) 10 3 = true :=
  (c2_freshness_and_probe_order.1 5 10 3).mpr ⟨by decide, by decide⟩

/-- Witness for the amended C8: the Notes header is present for a concrete
text attachment under `all` inlining. -/
theorem c8_amended_notes_section_witness :
    notesHeader ∈ buildHtmlParts "T".data epWS "eu".data (JSNum.finite 0) [attWS]
      InlineMode.imAll :=
  (c8_amended_notes_section.1 "T".data epWS "eu".data (JSNum.finite 0) [attWS]
    InlineMode.imAll).mpr ⟨rfl, by decide⟩

/-- Witness for C10 at the concrete `ep1` scenario in title mode. -/
theorem c10_shownotes_html_nonempty_witness :
    (buildEpisodeShownotes fwEp1 "My Show".data "show".data "d".data epEp1
        "http://h/a.mp3".data JSNum.nan "http://h".data ShowMode.mTitle
        InlineMode.imAll 8000).html ≠ [] :=
  (c10_shownotes_html_nonempty.2.2 fwEp1 "My Show".data "show".data "d".data epEp1
    "http://h/a.mp3".data JSNum.nan "http://h".data ShowMode.mTitle
    InlineMode.imAll 8000).1

end Folder2Podcast
